import Mathlib

set_option maxRecDepth 100000

namespace Optimization

/- Shallow embedding of the CPLEX model objects used by `assign.py` and
`transport.py`: a model is an objective sense, a list of variables (with
name, lower bound, optional upper bound — `none` standing for `+inf` — and
objective coefficient), and a list of sparse linear constraints. -/

inductive Sense where
  | L
  | E
  | G
deriving DecidableEq, Repr

structure LinConstr where
  ind : List String
  val : List ℚ
  sense : Sense
  rhs : ℚ
  cname : String
deriving DecidableEq, Repr

structure Var where
  vname : String
  lb : ℚ
  ub : Option ℚ
  obj : ℚ
deriving DecidableEq, Repr

inductive ObjSense where
  | minimize
  | maximize
deriving DecidableEq, Repr

structure Model where
  sense : ObjSense
  vars : List Var
  constrs : List LinConstr
deriving DecidableEq, Repr

structure Circle where
  a : ℚ
  b : ℚ
  r : ℚ
deriving DecidableEq, Repr

/- Variable names, as built by the f-strings in `assign.py`. -/

def xName (i : ℕ) : String := "x" ++ Nat.repr i

def yName (i : ℕ) : String := "y" ++ Nat.repr i

def dName (i j : ℕ) : String := "d" ++ Nat.repr i ++ Nat.repr j

/-- The ordered pairs `[(i, j) for i in range(n) for j in range(n) if i != j]`. -/
def dPairs (n : ℕ) : List (ℕ × ℕ) :=
  (List.range n).flatMap (fun i => ((List.range n).filter (fun j => i != j)).map (fun j => (i, j)))

/-- One iteration of the circle-constraint loop of `assign_problem`: four
`L`-sense rows over `x[i], y[i]` for facility `i`; the list accesses are
fallible (`none` models Python's `IndexError`). -/
def circleBody (x y : List String) (circles : List Circle) (i : ℕ) : Option (List LinConstr) := do
  let c ← circles[i]?
  let xi ← x[i]?
  let yi ← y[i]?
  pure ([⟨[xi, yi], [1, 1], Sense.L, c.a + c.r, "circle_x_ub_" ++ Nat.repr i⟩,
         ⟨[xi, yi], [-1, -1], Sense.L, c.r - c.a, "circle_x_lb_" ++ Nat.repr i⟩,
         ⟨[xi, yi], [1, -1], Sense.L, c.b + c.r, "circle_y_ub_" ++ Nat.repr i⟩,
         ⟨[xi, yi], [-1, 1], Sense.L, c.r - c.b, "circle_y_lb_" ++ Nat.repr i⟩] : List LinConstr)

/-- The circle-constraint loop of `assign_problem`: `for i, circle in
enumerate(circles)`. -/
def circleConstraints (x y : List String) (circles : List Circle) : Option (List LinConstr) := do
  let rows ← (List.range circles.length).mapM (circleBody x y circles)
  pure rows.flatten

/-- One term of the objective assembly: `(d[idx], flows[i][j])`. -/
def termBody (d : List String) (flows : List (List ℚ)) (pairs : List (ℕ × ℕ)) (idx : ℕ) :
    Option (String × ℚ) := do
  let p ← pairs[idx]?
  let dv ← d[idx]?
  let row ← flows[p.1]?
  let f ← row[p.2]?
  pure (dv, f)

/-- The objective assembly of `assign_problem`:
`[(d[idx], flows[i][j]) for idx, (i, j) in enumerate(pairs)]`. -/
def objectiveTerms (d : List String) (flows : List (List ℚ)) (pairs : List (ℕ × ℕ)) :
    Option (List (String × ℚ)) :=
  (List.range pairs.length).mapM (termBody d flows pairs)

/-- One iteration of the auxiliary-distance loop of `assign_problem`: two
`L`-sense rows over `x[i], x[j], y[i], y[j], d[idx]`. -/
def auxBody (x y d : List String) (pairs : List (ℕ × ℕ)) (idx : ℕ) :
    Option (List LinConstr) := do
  let p ← pairs[idx]?
  let xi ← x[p.1]?
  let xj ← x[p.2]?
  let yi ← y[p.1]?
  let yj ← y[p.2]?
  let dv ← d[idx]?
  pure ([⟨[xi, xj, yi, yj, dv], [2, -2, 2, -2, -1], Sense.L, 0,
          "aux_distance_" ++ Nat.repr p.1 ++ Nat.repr p.2 ++ "_lb"⟩,
         ⟨[xi, xj, yi, yj, dv], [-2, 2, -2, 2, -1], Sense.L, 0,
          "aux_distance_" ++ Nat.repr p.1 ++ Nat.repr p.2 ++ "_ub"⟩] : List LinConstr)

/-- The auxiliary-distance loop of `assign_problem`. -/
def auxConstraints (x y d : List String) (pairs : List (ℕ × ℕ)) : Option (List LinConstr) := do
  let rows ← (List.range pairs.length).mapM (auxBody x y d pairs)
  pure rows.flatten

/-- `objective.set_linear(terms)`: each named variable gets the coefficient
paired with its name (names are resolved by lookup, as CPLEX does). -/
def setLinear (vs : List Var) (terms : List (String × ℚ)) : List Var :=
  vs.map (fun v =>
    match terms.find? (fun t => t.1 == v.vname) with
    | some t => ⟨v.vname, v.lb, v.ub, t.2⟩
    | none => v)

/-- The model-construction part of `assign_problem` from `assign.py`:
variables `x0..`, `y0..` then `d{i}{j}`, all with bounds `[0, inf)`; the four
circle rows per facility; the objective terms `flows[i][j]` on `d`; the two
auxiliary rows per ordered pair.  Returns `none` when an out-of-range list
access occurs (Python `IndexError`). -/
def assign_problem (circles : List Circle) (flows : List (List ℚ)) (n : ℕ) : Option Model := do
  let x := (List.range n).map xName
  let y := (List.range n).map yName
  let pairs := dPairs n
  let d := pairs.map (fun p => dName p.1 p.2)
  let vars0 : List Var :=
    (x ++ y).map (fun s => ⟨s, 0, none, 0⟩) ++ d.map (fun s => ⟨s, 0, none, 0⟩)
  let cc ← circleConstraints x y circles
  let terms ← objectiveTerms d flows pairs
  let ac ← auxConstraints x y d pairs
  pure ⟨ObjSense.minimize, setLinear vars0 terms, cc ++ ac⟩

/- Explicit (total) normal forms of the pieces assembled by `assign_problem`,
used to state what the builder produces when no access is out of range. -/

/-- The value of `flows[i][j]`, defaulting to `0` when out of range. -/
def flowAt (flows : List (List ℚ)) (i j : ℕ) : ℚ := (flows[i]?.bind (fun r => r[j]?)).getD 0

def circleBlock (i : ℕ) (c : Circle) : List LinConstr :=
  [⟨[xName i, yName i], [1, 1], Sense.L, c.a + c.r, "circle_x_ub_" ++ Nat.repr i⟩,
   ⟨[xName i, yName i], [-1, -1], Sense.L, c.r - c.a, "circle_x_lb_" ++ Nat.repr i⟩,
   ⟨[xName i, yName i], [1, -1], Sense.L, c.b + c.r, "circle_y_ub_" ++ Nat.repr i⟩,
   ⟨[xName i, yName i], [-1, 1], Sense.L, c.r - c.b, "circle_y_lb_" ++ Nat.repr i⟩]

def auxBlock (p : ℕ × ℕ) : List LinConstr :=
  [⟨[xName p.1, xName p.2, yName p.1, yName p.2, dName p.1 p.2], [2, -2, 2, -2, -1], Sense.L, 0,
    "aux_distance_" ++ Nat.repr p.1 ++ Nat.repr p.2 ++ "_lb"⟩,
   ⟨[xName p.1, xName p.2, yName p.1, yName p.2, dName p.1 p.2], [-2, 2, -2, 2, -1], Sense.L, 0,
    "aux_distance_" ++ Nat.repr p.1 ++ Nat.repr p.2 ++ "_ub"⟩]

def assignVars0 (n : ℕ) : List Var :=
  ((List.range n).map xName ++ (List.range n).map yName).map (fun s => ⟨s, 0, none, 0⟩)
    ++ ((dPairs n).map (fun p => dName p.1 p.2)).map (fun s => ⟨s, 0, none, 0⟩)

/-- The objective term contributed by the ordered pair `p`. -/
def termOf (flows : List (List ℚ)) (p : ℕ × ℕ) : String × ℚ :=
  (dName p.1 p.2, flowAt flows p.1 p.2)

def assignTerms (flows : List (List ℚ)) (n : ℕ) : List (String × ℚ) :=
  (dPairs n).map (termOf flows)

/-- The model `assign_problem` produces when every list access is in range. -/
def assignModel (circles : List Circle) (flows : List (List ℚ)) (n : ℕ) : Model :=
  ⟨ObjSense.minimize,
   setLinear (assignVars0 n) (assignTerms flows n),
   (List.range circles.length).flatMap (fun i => circleBlock i (circles.getD i ⟨0, 0, 0⟩))
     ++ (dPairs n).flatMap auxBlock⟩

/-- The coefficient content of a constraint (dropping the diagnostic name). -/
def LinConstr.body (c : LinConstr) : List String × List ℚ × Sense × ℚ :=
  (c.ind, c.val, c.sense, c.rhs)

/-- Reference construction, taken from the specification's words: for each
facility `i` with circle `(a, b, r)`, the four `L`-sense rows
`x_i + y_i ≤ a + r`, `-(x_i + y_i) ≤ r - a`, `x_i - y_i ≤ b + r`,
`-(x_i - y_i) ≤ r - b`; and for each ordered pair `i ≠ j`, the two `L`-sense
rows `2(x_i - x_j) + 2(y_i - y_j) - d_ij ≤ 0` and
`-2(x_i - x_j) - 2(y_i - y_j) - d_ij ≤ 0`; nothing else. -/
def specAssignConstraints (circles : List Circle) (n : ℕ) :
    List (List String × List ℚ × Sense × ℚ) :=
  (List.range n).flatMap (fun i =>
    let c := circles.getD i ⟨0, 0, 0⟩
    [([xName i, yName i], [1, 1], Sense.L, c.a + c.r),
     ([xName i, yName i], [-1, -1], Sense.L, c.r - c.a),
     ([xName i, yName i], [1, -1], Sense.L, c.b + c.r),
     ([xName i, yName i], [-1, 1], Sense.L, c.r - c.b)])
  ++ (dPairs n).flatMap (fun p =>
    [([xName p.1, xName p.2, yName p.1, yName p.2, dName p.1 p.2],
      [2, -2, 2, -2, -1], Sense.L, 0),
     ([xName p.1, xName p.2, yName p.1, yName p.2, dName p.1 p.2],
      [-2, 2, -2, 2, -1], Sense.L, 0)])

/-- The dimension contract of `assign_problem`:
`n == len(circles) == len(flows) == len(flows[i])` for all `i`. -/
def dimsMatch (circles : List Circle) (flows : List (List ℚ)) (n : ℕ) : Prop :=
  circles.length = n ∧ flows.length = n ∧ ∀ row ∈ flows, row.length = n

instance (circles : List Circle) (flows : List (List ℚ)) (n : ℕ) :
    Decidable (dimsMatch circles flows n) := by
  unfold dimsMatch; infer_instance

/-- Ambiguity of the `d{i}{j}` naming scheme at size `n`: two distinct
ordered pairs of facility indices receive the same variable-name string. -/
def dNamingAmbiguous (n : ℕ) : Prop :=
  ∃ p ∈ dPairs n, ∃ q ∈ dPairs n, p ≠ q ∧ dName p.1 p.2 = dName q.1 q.2

instance (n : ℕ) : Decidable (dNamingAmbiguous n) := by
  unfold dNamingAmbiguous; infer_instance

/- The transportation builder from `transport.py`. -/

def tVar (i j : ℕ) : String := "x" ++ Nat.repr i ++ "_" ++ Nat.repr j

def transportVars (supply demand : List ℚ) : List String :=
  (List.range supply.length).flatMap (fun i => (List.range demand.length).map (fun j => tVar i j))

def supplyConstrs (supply demand : List ℚ) : List LinConstr :=
  (List.range supply.length).map (fun i =>
    ⟨(List.range demand.length).map (fun j => tVar i j), List.replicate demand.length 1,
     Sense.L, supply.getD i 0, ""⟩)

def demandConstrs (supply demand : List ℚ) : List LinConstr :=
  (List.range demand.length).map (fun j =>
    ⟨(List.range supply.length).map (fun i => tVar i j), List.replicate supply.length 1,
     Sense.E, demand.getD j 0, ""⟩)

/-- The model-construction part of `transportation_problem` from
`transport.py`: one shipment variable `x{i}_{j}` per source-destination pair
with objective coefficient `costs[i * len(demand) + j]` and bounds `[0, inf)`,
one `L`-sense supply row per source and one `E`-sense demand row per
destination.  `none` models the CPLEX error raised when the `obj=costs` list
does not match the variable list. -/
def transportation_problem (supply demand costs : List ℚ) : Option Model :=
  let vars := transportVars supply demand
  if costs.length = vars.length then
    some ⟨ObjSense.minimize, List.zipWith (fun s c => ⟨s, 0, none, c⟩) vars costs,
          supplyConstrs supply demand ++ demandConstrs supply demand⟩
  else none

/- Semantics of a model: value of a sparse row under an assignment,
satisfaction of one constraint, feasibility of an assignment. -/

def rowVal (asg : String → ℚ) (c : LinConstr) : ℚ :=
  ((c.ind.zip c.val).map (fun t => t.2 * asg t.1)).sum

def satisfies (asg : String → ℚ) (c : LinConstr) : Prop :=
  (c.sense = Sense.L → rowVal asg c ≤ c.rhs) ∧
  (c.sense = Sense.E → rowVal asg c = c.rhs) ∧
  (c.sense = Sense.G → c.rhs ≤ rowVal asg c)

def ubOk (asg : String → ℚ) (v : Var) : Prop :=
  ∀ u ∈ v.ub, asg v.vname ≤ u

instance (asg : String → ℚ) (v : Var) : Decidable (ubOk asg v) :=
  match hv : v.ub with
  | some u => decidable_of_iff (asg v.vname ≤ u) (by simp [ubOk, hv])
  | none => isTrue (by simp [ubOk, hv])

instance (asg : String → ℚ) (c : LinConstr) : Decidable (satisfies asg c) := by
  unfold satisfies; infer_instance

def feasible (m : Model) (asg : String → ℚ) : Prop :=
  (∀ c ∈ m.constrs, satisfies asg c) ∧ ∀ v ∈ m.vars, v.lb ≤ asg v.vname ∧ ubOk asg v

instance (m : Model) (asg : String → ℚ) : Decidable (feasible m asg) := by
  unfold feasible; infer_instance

/- The driver scripts around the builders, with the external solver as a
collaborator returning either a solution or a raised exception. -/

inductive PyExn where
  | cplexError : String → PyExn
  | indexError : PyExn
deriving DecidableEq, Repr

structure Solution where
  status : String
  objval : ℚ
  values : String → ℚ

def transportReport (vars : List String) (sol : Solution) : List String :=
  ("Solution status: " ++ sol.status)
    :: ("Objective value: " ++ toString sol.objval)
    :: ((vars.filter (fun s => decide (0 < sol.values s))).map
        (fun s => s ++ " = " ++ toString (sol.values s)))

/-- `transportation_problem` as run by `transport.py`: the whole body sits in
a `try` block whose `except CplexError` prints a message instead of
re-raising; any other exception would still propagate. -/
def transportation_script (supply demand costs : List ℚ) (showFlag : Bool)
    (solver : Model → Except PyExn Solution) : Except PyExn (List String) :=
  match (do
      let m ← (match transportation_problem supply demand costs with
        | some m => Except.ok m
        | none => Except.error (PyExn.cplexError "invalid objective length"))
      let sol ← solver m
      Except.ok (m, sol) : Except PyExn (Model × Solution)) with
  | Except.ok ms =>
      Except.ok (if showFlag then transportReport (ms.1.vars.map Var.vname) ms.2 else [])
  | Except.error (PyExn.cplexError msg) => Except.ok ["Exception raised: " ++ msg]
  | Except.error PyExn.indexError => Except.error PyExn.indexError

def assignReport (n : ℕ) (sol : Solution) : List String :=
  ("Solution status: " ++ sol.status)
    :: ("Objective value: " ++ toString sol.objval)
    :: ((List.range n).map (fun i =>
        "(" ++ toString (sol.values (xName i)) ++ ", " ++ toString (sol.values (yName i)) ++ ")"))

/-- `assign_problem` as run by `assign.py`: no exception handler anywhere, so
both an `IndexError` during model construction and a solver-level exception
propagate to the caller. -/
def assign_script (circles : List Circle) (flows : List (List ℚ)) (n : ℕ)
    (solver : Model → Except PyExn Solution) : Except PyExn (List String) := do
  let m ← (match assign_problem circles flows n with
    | some m => Except.ok m
    | none => Except.error PyExn.indexError)
  let sol ← solver m
  Except.ok (assignReport n sol)

/-- `generate_data` from `transport.py`.  The calls to `random.randint` are
modelled by an oracle `draw` giving the k-th value drawn; the structure of
the returned triple follows the source exactly: `num_sources` supply draws;
`num_destinations - 1` demand draws followed by the remainder
`total_supply - sum(demand)`; then `num_sources * num_destinations` cost
draws. -/
def generate_data (num_sources num_destinations : ℕ) (draw : ℕ → ℤ) :
    List ℤ × List ℤ × List ℤ :=
  let supply := (List.range num_sources).map draw
  let total_supply := supply.sum
  let demand0 := (List.range (num_destinations - 1)).map (fun k => draw (num_sources + k))
  let demand := demand0 ++ [total_supply - demand0.sum]
  let costs := (List.range (num_sources * num_destinations)).map
    (fun k => draw (num_sources + (num_destinations - 1) + k))
  (supply, demand, costs)

/-- The model built for the concrete `2 × 2` transportation scenario
`supply = [10, 20]`, `demand = [15, 15]`, `costs = [1, 2, 3, 4]`. -/
def tModel2x2 : Model :=
  (transportation_problem [10, 20] [15, 15] [1, 2, 3, 4]).getD ⟨ObjSense.minimize, [], []⟩

/-- A concrete feasible shipment for the `2 × 2` scenario: `x0_0 = 10`,
`x1_0 = 5`, `x1_1 = 15`, everything else `0`. -/
def asg2x2 : String → ℚ := fun s =>
  if s = "x0_0" then 10 else if s = "x1_0" then 5 else if s = "x1_1" then 15 else 0

/- General helper lemmas about `List.mapM` in the `Option` monad and about
indexing `List.range`. -/

theorem mapM_option_eq_some_map {α β : Type} (f : α → Option β) (g : α → β) :
    ∀ l : List α, (∀ a ∈ l, f a = some (g a)) → l.mapM f = some (l.map g) := by
  intro l
  induction l with
  | nil => intro _; rfl
  | cons a l ih =>
    intro h
    rw [List.mapM_cons, h a (by simp), ih (fun b hb => h b (by simp [hb]))]
    rfl

theorem mapM_option_eq_none_iff {α β : Type} (f : α → Option β) :
    ∀ l : List α, l.mapM f = none ↔ ∃ a ∈ l, f a = none := by
  intro l
  induction l with
  | nil => rw [List.mapM_nil]; simp
  | cons a l ih =>
    rw [List.mapM_cons]
    cases hfa : f a with
    | none => simp [hfa]
    | some b =>
      cases hml : l.mapM f with
      | none =>
        simp only [Option.bind_eq_bind, Option.some_bind, hml, Option.none_bind]
        constructor
        · intro _
          obtain ⟨c, hc, hfc⟩ := ih.mp hml
          exact ⟨c, List.mem_cons_of_mem a hc, hfc⟩
        · intro _; trivial
      | some bs =>
        simp only [hml] at ih
        simp only [Option.bind_eq_bind, Option.some_bind, hml]
        constructor
        · intro h; cases h
        · rintro ⟨c, hc, hfc⟩
          rw [List.mem_cons] at hc
          rcases hc with hc | hc
          · subst hc; rw [hfa] at hfc; cases hfc
          · exact absurd (ih.mpr ⟨c, hc, hfc⟩) (by simp)

theorem mapM_option_congr {α β : Type} {f g : α → Option β} :
    ∀ l : List α, (∀ a ∈ l, f a = g a) → l.mapM f = l.mapM g := by
  intro l
  induction l with
  | nil => intro _; rfl
  | cons a l ih =>
    intro h
    rw [List.mapM_cons, List.mapM_cons, h a (by simp), ih (fun b hb => h b (by simp [hb]))]

theorem map_range_getD {α β : Type} (g : α → β) (d : α) :
    ∀ l : List α, (List.range l.length).map (fun i => g (l.getD i d)) = l.map g := by
  intro l
  induction l with
  | nil => rfl
  | cons a l ih =>
    rw [List.length_cons, List.range_succ_eq_map, List.map_cons, List.map_map]
    have hcomp : ((fun i => g ((a :: l).getD i d)) ∘ Nat.succ) = (fun i => g (l.getD i d)) := by
      funext i
      simp [Nat.succ_eq_add_one, List.getD_cons_succ]
    rw [hcomp, ih, List.getD_cons_zero, List.map_cons]

/- Facts about the pair enumeration `dPairs`. -/

theorem mem_dPairs {n : ℕ} {p : ℕ × ℕ} : p ∈ dPairs n ↔ p.1 < n ∧ p.2 < n ∧ p.1 ≠ p.2 := by
  obtain ⟨i, j⟩ := p
  simp only [dPairs, List.mem_flatMap, List.mem_map, List.mem_filter, List.mem_range, bne_iff_ne,
    ne_eq, Prod.mk.injEq]
  constructor
  · rintro ⟨a, ha, b, ⟨hb, hab⟩, rfl, rfl⟩
    exact ⟨ha, hb, hab⟩
  · rintro ⟨hi, hj, hij⟩
    exact ⟨i, hi, j, ⟨hj, hij⟩, rfl, rfl⟩

theorem length_filter_ne (n i : ℕ) (h : i < n) :
    ((List.range n).filter (fun j => i != j)).length = n - 1 := by
  induction n with
  | zero => omega
  | succ m ih =>
    rw [List.range_succ, List.filter_append, List.length_append]
    by_cases him : i < m
    · have hne : (i != m) = true := by
        rw [bne_iff_ne]
        omega
      have h1 : (List.filter (fun j => i != j) [m]).length = 1 := by
        simp [List.filter_singleton, hne]
      rw [ih him, h1]
      omega
    · have him' : i = m := by omega
      subst him'
      have h1 : List.filter (fun j => i != j) (List.range i) = List.range i := by
        rw [List.filter_eq_self]
        intro a ha
        rw [List.mem_range] at ha
        rw [bne_iff_ne]
        omega
      have h2 : (List.filter (fun j => i != j) [i]).length = 0 := by
        simp [List.filter_singleton]
      rw [h1, h2, List.length_range]
      omega

theorem dPairs_length (n : ℕ) : (dPairs n).length = n * (n - 1) := by
  rw [dPairs, List.length_flatMap]
  have h1 : List.map
      (List.length ∘ fun i => ((List.range n).filter (fun j => i != j)).map (fun j => (i, j)))
      (List.range n) = List.map (fun _ => n - 1) (List.range n) := by
    apply List.map_congr_left
    intro i hi
    rw [List.mem_range] at hi
    simp only [Function.comp_apply, List.length_map]
    exact length_filter_ne n i hi
  rw [h1, List.map_const', List.length_range, List.sum_replicate, smul_eq_mul]

/- The three name families are pairwise disjoint: they start with distinct
characters. -/

theorem xName_head (i : ℕ) : (xName i).data.head? = some 'x' := by
  rw [xName, String.data_append]
  rfl

theorem yName_head (i : ℕ) : (yName i).data.head? = some 'y' := by
  rw [yName, String.data_append]
  rfl

theorem dName_head (i j : ℕ) : (dName i j).data.head? = some 'd' := by
  rw [dName, String.data_append, String.data_append]
  rfl

theorem dName_ne_xName (a b i : ℕ) : dName a b ≠ xName i := by
  intro h
  have h2 : (dName a b).data.head? = (xName i).data.head? := by rw [h]
  rw [dName_head, xName_head] at h2
  exact absurd h2 (by decide)

theorem dName_ne_yName (a b i : ℕ) : dName a b ≠ yName i := by
  intro h
  have h2 : (dName a b).data.head? = (yName i).data.head? := by rw [h]
  rw [dName_head, yName_head] at h2
  exact absurd h2 (by decide)

/- Lookup by key in an association list with distinct keys. -/

theorem find?_key_of_nodup {β : Type} :
    ∀ (l : List (String × β)) (s : String) (b : β),
      (l.map Prod.fst).Nodup → (s, b) ∈ l → l.find? (fun t => t.1 == s) = some (s, b) := by
  intro l
  induction l with
  | nil => intro s b _ h; cases h
  | cons a l ih =>
    intro s b hnd hmem
    rw [List.map_cons, List.nodup_cons] at hnd
    obtain ⟨hna, hndl⟩ := hnd
    rw [List.mem_cons] at hmem
    rw [List.find?_cons]
    by_cases heq : a.1 = s
    · have hbeq : (a.1 == s) = true := beq_iff_eq.mpr heq
      rcases hmem with hmem | hmem
      · rw [hbeq, ← hmem]
      · exfalso
        apply hna
        rw [heq]
        exact List.mem_map_of_mem Prod.fst hmem
    · have hbeq : (a.1 == s) = false := beq_eq_false_iff_ne.mpr heq
      rcases hmem with hmem | hmem
      · exact absurd (by rw [← hmem]) heq
      · rw [hbeq]
        exact ih s b hndl hmem

/- Facts about `setLinear` and the initial variable list. -/

theorem setLinear_map_vname (vs : List Var) (ts : List (String × ℚ)) :
    (setLinear vs ts).map Var.vname = vs.map Var.vname := by
  unfold setLinear
  rw [List.map_map]
  apply List.map_congr_left
  intro v _
  simp only [Function.comp_apply]
  cases hf : ts.find? (fun t => t.1 == v.vname) with
  | none => simp [hf]
  | some t => simp [hf]

theorem setLinear_length (vs : List Var) (ts : List (String × ℚ)) :
    (setLinear vs ts).length = vs.length := by
  unfold setLinear
  rw [List.length_map]

theorem setLinear_lb_ub (vs : List Var) (ts : List (String × ℚ)) :
    ∀ w ∈ setLinear vs ts, ∃ v ∈ vs, w.lb = v.lb ∧ w.ub = v.ub := by
  intro w hw
  unfold setLinear at hw
  rw [List.mem_map] at hw
  obtain ⟨v, hv, hvw⟩ := hw
  refine ⟨v, hv, ?_⟩
  cases hf : ts.find? (fun t => t.1 == v.vname) with
  | none => rw [hf] at hvw; rw [← hvw]; exact ⟨rfl, rfl⟩
  | some t => rw [hf] at hvw; rw [← hvw]; exact ⟨rfl, rfl⟩

theorem assignVars0_length (n : ℕ) : (assignVars0 n).length = 2 * n + (dPairs n).length := by
  unfold assignVars0
  simp only [List.length_append, List.length_map, List.length_range]
  omega

theorem assignVars0_lb_ub (n : ℕ) : ∀ v ∈ assignVars0 n, v.lb = 0 ∧ v.ub = none := by
  intro v hv
  unfold assignVars0 at hv
  rw [List.mem_append] at hv
  rcases hv with hv | hv <;>
  · rw [List.mem_map] at hv
    obtain ⟨s, _, hs⟩ := hv
    rw [← hs]
    exact ⟨rfl, rfl⟩

theorem assignVars0_map_vname (n : ℕ) :
    (assignVars0 n).map Var.vname
      = (List.range n).map xName ++ (List.range n).map yName
          ++ (dPairs n).map (fun p => dName p.1 p.2) := by
  unfold assignVars0
  rw [List.map_append, List.map_map, List.map_map]
  have hid : (Var.vname ∘ fun s => (⟨s, 0, none, 0⟩ : Var)) = id := rfl
  rw [hid, List.map_id, List.map_id]

theorem assignVars0_x (n i : ℕ) (h : i < n) :
    (assignVars0 n)[i]? = some ⟨xName i, 0, none, 0⟩ := by
  unfold assignVars0
  have hx : ((List.range n).map xName ++ (List.range n).map yName)[i]? = some (xName i) := by
    rw [List.getElem?_append, if_pos (by simpa using h), List.getElem?_map,
      List.getElem?_range h]
    rfl
  rw [List.getElem?_append, if_pos (by simp [List.length_append]; omega), List.getElem?_map, hx]
  rfl

theorem assignVars0_y (n i : ℕ) (h : i < n) :
    (assignVars0 n)[n + i]? = some ⟨yName i, 0, none, 0⟩ := by
  unfold assignVars0
  have hy : ((List.range n).map xName ++ (List.range n).map yName)[n + i]? = some (yName i) := by
    rw [List.getElem?_append, if_neg (by simp)]
    simp only [List.length_map, List.length_range]
    have h2 : n + i - n = i := by omega
    rw [h2, List.getElem?_map, List.getElem?_range h]
    rfl
  rw [List.getElem?_append, if_pos (by simp [List.length_append]; omega), List.getElem?_map, hy]
  rfl

theorem assignVars0_d (n idx : ℕ) (p : ℕ × ℕ) (hp : (dPairs n)[idx]? = some p) :
    (assignVars0 n)[2 * n + idx]? = some ⟨dName p.1 p.2, 0, none, 0⟩ := by
  unfold assignVars0
  rw [List.getElem?_append, if_neg (by simp [List.length_append]; omega)]
  simp only [List.length_map, List.length_append, List.length_range]
  have h2 : 2 * n + idx - (n + n) = idx := by omega
  rw [h2, List.getElem?_map, List.getElem?_map, hp]
  rfl

/- What each loop iteration evaluates to when the accesses are in range. -/

theorem flowAt_eq {flows : List (List ℚ)} {i j : ℕ} {f : ℚ}
    (h : flows[i]?.bind (fun r => r[j]?) = some f) : flowAt flows i j = f := by
  rw [flowAt, h]
  rfl

theorem circleBody_eq (circles : List Circle) (n i : ℕ) (hi : i < circles.length)
    (hin : i < n) :
    circleBody ((List.range n).map xName) ((List.range n).map yName) circles i
      = some (circleBlock i (circles.getD i ⟨0, 0, 0⟩)) := by
  unfold circleBody circleBlock
  have hx : ((List.range n).map xName)[i]? = some (xName i) := by
    rw [List.getElem?_map, List.getElem?_range hin]
    rfl
  have hy : ((List.range n).map yName)[i]? = some (yName i) := by
    rw [List.getElem?_map, List.getElem?_range hin]
    rfl
  rw [List.getElem?_eq_getElem hi, List.getD_eq_getElem _ _ hi]
  simp only [Option.bind_eq_bind, Option.some_bind, hx, hy, Option.pure_def]

theorem circleConstraints_eq (circles : List Circle) (n : ℕ) (h : circles.length ≤ n) :
    circleConstraints ((List.range n).map xName) ((List.range n).map yName) circles
      = some ((List.range circles.length).flatMap
          (fun i => circleBlock i (circles.getD i ⟨0, 0, 0⟩))) := by
  unfold circleConstraints
  have hm := mapM_option_eq_some_map
    (circleBody ((List.range n).map xName) ((List.range n).map yName) circles)
    (fun i => circleBlock i (circles.getD i ⟨0, 0, 0⟩))
    (List.range circles.length)
    (fun i hi => circleBody_eq circles n i (List.mem_range.mp hi)
      (lt_of_lt_of_le (List.mem_range.mp hi) h))
  rw [hm]
  simp only [Option.bind_eq_bind, Option.some_bind, Option.pure_def, List.flatMap_def]

theorem termBody_eq (flows : List (List ℚ)) (n idx : ℕ) (hidx : idx < (dPairs n).length)
    (hf : (flows[((dPairs n).getD idx (0, 0)).1]?.bind
      (fun r => r[((dPairs n).getD idx (0, 0)).2]?)).isSome) :
    termBody ((dPairs n).map (fun p => dName p.1 p.2)) flows (dPairs n) idx
      = some (termOf flows ((dPairs n).getD idx (0, 0))) := by
  rw [List.getD_eq_getElem _ _ hidx] at hf ⊢
  unfold termBody termOf
  have hd : ((dPairs n).map (fun p => dName p.1 p.2))[idx]?
      = some (dName ((dPairs n)[idx]).1 ((dPairs n)[idx]).2) := by
    rw [List.getElem?_map, List.getElem?_eq_getElem hidx]
    rfl
  obtain ⟨f, hsome⟩ := Option.isSome_iff_exists.mp hf
  obtain ⟨row, hrow, hentry⟩ := Option.bind_eq_some.mp hsome
  rw [List.getElem?_eq_getElem hidx]
  simp only [Option.bind_eq_bind, Option.some_bind, hd, hrow, hentry, Option.pure_def,
    flowAt_eq hsome]

theorem objectiveTerms_eq (flows : List (List ℚ)) (n : ℕ)
    (hf : ∀ p ∈ dPairs n, (flows[p.1]?.bind (fun r => r[p.2]?)).isSome) :
    objectiveTerms ((dPairs n).map (fun p => dName p.1 p.2)) flows (dPairs n)
      = some (assignTerms flows n) := by
  unfold objectiveTerms
  have hm := mapM_option_eq_some_map
    (termBody ((dPairs n).map (fun p => dName p.1 p.2)) flows (dPairs n))
    (fun idx => termOf flows ((dPairs n).getD idx (0, 0)))
    (List.range (dPairs n).length)
    (fun idx hidx => by
      have h1 : idx < (dPairs n).length := List.mem_range.mp hidx
      apply termBody_eq flows n idx h1
      rw [List.getD_eq_getElem _ _ h1]
      exact hf _ (List.getElem_mem h1))
  rw [hm]
  unfold assignTerms
  rw [map_range_getD (termOf flows) (0, 0) (dPairs n)]

theorem auxBody_eq (n idx : ℕ) (hidx : idx < (dPairs n).length) :
    auxBody ((List.range n).map xName) ((List.range n).map yName)
        ((dPairs n).map (fun p => dName p.1 p.2)) (dPairs n) idx
      = some (auxBlock ((dPairs n).getD idx (0, 0))) := by
  rw [List.getD_eq_getElem _ _ hidx]
  have hpmem := List.getElem_mem hidx
  rw [mem_dPairs] at hpmem
  obtain ⟨h1, h2, _⟩ := hpmem
  unfold auxBody auxBlock
  have hx1 : ((List.range n).map xName)[((dPairs n)[idx]).1]?
      = some (xName ((dPairs n)[idx]).1) := by
    rw [List.getElem?_map, List.getElem?_range h1]
    rfl
  have hx2 : ((List.range n).map xName)[((dPairs n)[idx]).2]?
      = some (xName ((dPairs n)[idx]).2) := by
    rw [List.getElem?_map, List.getElem?_range h2]
    rfl
  have hy1 : ((List.range n).map yName)[((dPairs n)[idx]).1]?
      = some (yName ((dPairs n)[idx]).1) := by
    rw [List.getElem?_map, List.getElem?_range h1]
    rfl
  have hy2 : ((List.range n).map yName)[((dPairs n)[idx]).2]?
      = some (yName ((dPairs n)[idx]).2) := by
    rw [List.getElem?_map, List.getElem?_range h2]
    rfl
  have hd : ((dPairs n).map (fun p => dName p.1 p.2))[idx]?
      = some (dName ((dPairs n)[idx]).1 ((dPairs n)[idx]).2) := by
    rw [List.getElem?_map, List.getElem?_eq_getElem hidx]
    rfl
  rw [List.getElem?_eq_getElem hidx]
  simp only [Option.bind_eq_bind, Option.some_bind, hx1, hx2, hy1, hy2, hd, Option.pure_def]

theorem auxConstraints_eq (n : ℕ) :
    auxConstraints ((List.range n).map xName) ((List.range n).map yName)
        ((dPairs n).map (fun p => dName p.1 p.2)) (dPairs n)
      = some ((dPairs n).flatMap auxBlock) := by
  unfold auxConstraints
  have hm := mapM_option_eq_some_map
    (auxBody ((List.range n).map xName) ((List.range n).map yName)
      ((dPairs n).map (fun p => dName p.1 p.2)) (dPairs n))
    (fun idx => auxBlock ((dPairs n).getD idx (0, 0)))
    (List.range (dPairs n).length)
    (fun idx hidx => by
      have h1 : idx < (dPairs n).length := List.mem_range.mp hidx
      apply auxBody_eq n idx h1)
  rw [hm]
  simp only [Option.bind_eq_bind, Option.some_bind, Option.pure_def]
  rw [map_range_getD auxBlock (0, 0) (dPairs n), List.flatMap_def]

/- Consequences of the dimension contract. -/

theorem dimsMatch_flows_isSome {circles : List Circle} {flows : List (List ℚ)} {n : ℕ}
    (h : dimsMatch circles flows n) :
    ∀ p ∈ dPairs n, (flows[p.1]?.bind (fun r => r[p.2]?)).isSome := by
  obtain ⟨_, hfl, hrow⟩ := h
  intro p hp
  rw [mem_dPairs] at hp
  obtain ⟨h1, h2, _⟩ := hp
  have hp1 : p.1 < flows.length := by rw [hfl]; exact h1
  rw [List.getElem?_eq_getElem hp1, Option.some_bind]
  have hlen : flows[p.1].length = n := hrow _ (List.getElem_mem hp1)
  rw [List.getElem?_eq_getElem (by rw [hlen]; exact h2)]
  rfl

/-- Master lemma: whenever `circles` has at most `n` entries and every
off-diagonal flow entry is present, `assign_problem` succeeds and produces
exactly `assignModel`. -/
theorem assign_problem_eq (circles : List Circle) (flows : List (List ℚ)) (n : ℕ)
    (hc : circles.length ≤ n)
    (hf : ∀ p ∈ dPairs n, (flows[p.1]?.bind (fun r => r[p.2]?)).isSome) :
    assign_problem circles flows n = some (assignModel circles flows n) := by
  unfold assign_problem
  simp only [circleConstraints_eq circles n hc, objectiveTerms_eq flows n hf,
    auxConstraints_eq n, Option.bind_eq_bind, Option.some_bind, Option.pure_def]
  rfl

/- When does construction fail?  The circle loop fails exactly when `circles`
is longer than `n`; the objective assembly fails exactly when some
off-diagonal flow entry is missing; the auxiliary loop never fails. -/

theorem circleConstraints_eq_none_iff (circles : List Circle) (n : ℕ) :
    circleConstraints ((List.range n).map xName) ((List.range n).map yName) circles = none
      ↔ n < circles.length := by
  constructor
  · intro hnone
    by_contra hle
    push_neg at hle
    rw [circleConstraints_eq circles n hle] at hnone
    cases hnone
  · intro hlt
    have hm : (List.range circles.length).mapM
        (circleBody ((List.range n).map xName) ((List.range n).map yName) circles) = none := by
      rw [mapM_option_eq_none_iff]
      refine ⟨n, List.mem_range.mpr hlt, ?_⟩
      unfold circleBody
      rw [List.getElem?_eq_getElem hlt]
      have hxn : ((List.range n).map xName)[n]? = none :=
        List.getElem?_eq_none (by simp)
      simp only [Option.bind_eq_bind, Option.some_bind, hxn, Option.none_bind]
    unfold circleConstraints
    rw [hm]
    rfl

theorem objectiveTerms_eq_none_iff (flows : List (List ℚ)) (n : ℕ) :
    objectiveTerms ((dPairs n).map (fun p => dName p.1 p.2)) flows (dPairs n) = none
      ↔ ∃ p ∈ dPairs n, flows[p.1]?.bind (fun r => r[p.2]?) = none := by
  unfold objectiveTerms
  rw [mapM_option_eq_none_iff]
  constructor
  · rintro ⟨idx, hidxmem, hbody⟩
    have hidx : idx < (dPairs n).length := List.mem_range.mp hidxmem
    refine ⟨(dPairs n)[idx], List.getElem_mem hidx, ?_⟩
    by_contra hne
    have hsome : (flows[((dPairs n).getD idx (0, 0)).1]?.bind
        (fun r => r[((dPairs n).getD idx (0, 0)).2]?)).isSome := by
      rw [List.getD_eq_getElem _ _ hidx]
      exact Option.ne_none_iff_isSome.mp hne
    rw [termBody_eq flows n idx hidx hsome] at hbody
    cases hbody
  · rintro ⟨p, hpmem, hacc⟩
    obtain ⟨idx, hidx, hpidx⟩ := List.mem_iff_getElem.mp hpmem
    refine ⟨idx, List.mem_range.mpr hidx, ?_⟩
    unfold termBody
    rw [List.getElem?_eq_getElem hidx, hpidx]
    have hd : ((dPairs n).map (fun p => dName p.1 p.2))[idx]? = some (dName p.1 p.2) := by
      rw [List.getElem?_map, List.getElem?_eq_getElem hidx, hpidx]
      rfl
    cases hrow : flows[p.1]? with
    | none => simp only [Option.bind_eq_bind, Option.some_bind, hd, hrow, Option.none_bind]
    | some row =>
      rw [hrow, Option.some_bind] at hacc
      simp only [Option.bind_eq_bind, Option.some_bind, hd, hrow, hacc, Option.none_bind]

theorem assign_problem_eq_none_iff (circles : List Circle) (flows : List (List ℚ)) (n : ℕ) :
    assign_problem circles flows n = none
      ↔ n < circles.length ∨ ∃ p ∈ dPairs n, flows[p.1]?.bind (fun r => r[p.2]?) = none := by
  unfold assign_problem
  by_cases h1 : n < circles.length
  · simp only [(circleConstraints_eq_none_iff circles n).mpr h1, Option.bind_eq_bind,
      Option.none_bind]
    exact iff_of_true trivial (Or.inl h1)
  · push_neg at h1
    simp only [circleConstraints_eq circles n h1, Option.bind_eq_bind, Option.some_bind]
    by_cases h2 : ∃ p ∈ dPairs n, flows[p.1]?.bind (fun r => r[p.2]?) = none
    · simp only [(objectiveTerms_eq_none_iff flows n).mpr h2, Option.none_bind]
      exact iff_of_true trivial (Or.inr h2)
    · have hf : ∀ p ∈ dPairs n, (flows[p.1]?.bind (fun r => r[p.2]?)).isSome := by
        intro p hp
        rcases hacc : flows[p.1]?.bind (fun r => r[p.2]?) with _ | f
        · exact absurd ⟨p, hp, hacc⟩ h2
        · rfl
      simp only [objectiveTerms_eq flows n hf, Option.some_bind, auxConstraints_eq n]
      exact iff_of_false (by simp) (not_or.mpr ⟨by omega, h2⟩)

/- The claim theorems. -/

/-- C1: for every input with matching dimensions, the builder emits exactly
the constraint set of the reference construction: the four `L`-sense circle
rows per facility and the two `L`-sense auxiliary rows per ordered pair,
with no other constraints (here as list equality of the coefficient
contents, which determines the constraint set). -/
theorem assign_constraints_match_spec (circles : List Circle) (flows : List (List ℚ))
    (n : ℕ) (h : dimsMatch circles flows n) :
    ∃ m, assign_problem circles flows n = some m ∧
      m.constrs.map LinConstr.body = specAssignConstraints circles n := by
  refine ⟨assignModel circles flows n,
    assign_problem_eq circles flows n (le_of_eq h.1) (dimsMatch_flows_isSome h), ?_⟩
  unfold assignModel specAssignConstraints
  rw [List.map_append]
  congr 1
  · rw [h.1, List.map_flatMap, List.flatMap_def, List.flatMap_def]
    congr 1
  · rw [List.map_flatMap, List.flatMap_def, List.flatMap_def]
    congr 1

/-- C1 witness: the spec scenario `n = 2`, circles `(0,0,5), (10,0,5)`,
flows `[[0,3],[3,0]]`. -/
theorem assign_constraints_match_spec_witness :
    ∃ m, assign_problem [⟨0, 0, 5⟩, ⟨10, 0, 5⟩] [[0, 3], [3, 0]] 2 = some m ∧
      m.constrs.map LinConstr.body = specAssignConstraints [⟨0, 0, 5⟩, ⟨10, 0, 5⟩] 2 :=
  assign_constraints_match_spec [⟨0, 0, 5⟩, ⟨10, 0, 5⟩] [[0, 3], [3, 0]] 2 (by decide)

/-- C2: for every `n ≥ 1` and matching-dimension input, the builder produces
exactly the `2n` position variables `x_0..x_{n-1}, y_0..y_{n-1}` followed by
the `n(n-1)` auxiliary variables, every variable with lower bound `0` and
unbounded upper bound, and exactly `4n + 2n(n-1)` constraints. -/
theorem assign_model_shape (circles : List Circle) (flows : List (List ℚ)) (n : ℕ)
    (hn : 1 ≤ n) (h : dimsMatch circles flows n) :
    ∃ m, assign_problem circles flows n = some m ∧
      m.vars.map Var.vname
        = (List.range n).map xName ++ (List.range n).map yName
            ++ (dPairs n).map (fun p => dName p.1 p.2) ∧
      m.vars.length = 2 * n + n * (n - 1) ∧
      (dPairs n).length = n * (n - 1) ∧
      (∀ v ∈ m.vars, v.lb = 0 ∧ v.ub = none) ∧
      m.constrs.length = 4 * n + 2 * (n * (n - 1)) := by
  refine ⟨assignModel circles flows n,
    assign_problem_eq circles flows n (le_of_eq h.1) (dimsMatch_flows_isSome h),
    ?_, ?_, dPairs_length n, ?_, ?_⟩
  · simp only [assignModel]
    rw [setLinear_map_vname, assignVars0_map_vname]
  · simp only [assignModel]
    rw [setLinear_length, assignVars0_length, dPairs_length]
  · simp only [assignModel]
    intro v hv
    obtain ⟨v0, hv0, hlb, hub⟩ := setLinear_lb_ub _ _ v hv
    obtain ⟨h0, h1x⟩ := assignVars0_lb_ub n v0 hv0
    exact ⟨hlb.trans h0, hub.trans h1x⟩
  · simp only [assignModel]
    rw [List.length_append]
    have hc4 : ((List.range circles.length).flatMap
        (fun i => circleBlock i (circles.getD i ⟨0, 0, 0⟩))).length = 4 * circles.length := by
      rw [List.length_flatMap]
      have he : List.map (List.length ∘ fun i => circleBlock i (circles.getD i ⟨0, 0, 0⟩))
          (List.range circles.length) = List.map (fun _ => 4) (List.range circles.length) := by
        apply List.map_congr_left
        intro i _
        rfl
      rw [he, List.map_const', List.length_range, List.sum_replicate, smul_eq_mul]
      omega
    have ha2 : ((dPairs n).flatMap auxBlock).length = 2 * (dPairs n).length := by
      rw [List.length_flatMap]
      have he : List.map (List.length ∘ auxBlock) (dPairs n) = List.map (fun _ => 2) (dPairs n) := by
        apply List.map_congr_left
        intro p _
        rfl
      rw [he, List.map_const', List.sum_replicate, smul_eq_mul]
      omega
    rw [hc4, ha2, h.1, dPairs_length]

/-- C2 witness at the spec scenario. -/
theorem assign_model_shape_witness :
    ∃ m, assign_problem [⟨0, 0, 5⟩, ⟨10, 0, 5⟩] [[0, 3], [3, 0]] 2 = some m ∧
      m.vars.map Var.vname
        = (List.range 2).map xName ++ (List.range 2).map yName
            ++ (dPairs 2).map (fun p => dName p.1 p.2) ∧
      m.vars.length = 2 * 2 + 2 * (2 - 1) ∧
      (dPairs 2).length = 2 * (2 - 1) ∧
      (∀ v ∈ m.vars, v.lb = 0 ∧ v.ub = none) ∧
      m.constrs.length = 4 * 2 + 2 * (2 * (2 - 1)) :=
  assign_model_shape [⟨0, 0, 5⟩, ⟨10, 0, 5⟩] [[0, 3], [3, 0]] 2 (by decide) (by decide)

/-- C5 counterexample: the claim asserts ambiguity of the `d{i}{j}` naming
for every `n ≥ 10`, but at `n = 10` (indices `0..9`, all single digits) no
two distinct ordered pairs share a name. -/
theorem d_naming_unambiguous_at_ten : 10 ≤ 10 ∧ ¬ dNamingAmbiguous 10 :=
  ⟨le_refl 10, by decide⟩

/-- C5 amended: the `d{i}{j}` naming scheme is ambiguous exactly from
`n = 12` on: for every `n ≥ 12` two distinct ordered pairs collide (e.g.
`(1, 11)` and `(11, 1)` both give `"d111"`), while at `n = 11` (and below)
all names are still distinct. -/
theorem d_naming_ambiguous_from_twelve :
    (∀ n, 12 ≤ n → dNamingAmbiguous n) ∧ ¬ dNamingAmbiguous 11 := by
  constructor
  · intro n hn
    refine ⟨(1, 11), ?_, (11, 1), ?_, by decide, by decide⟩
    · rw [mem_dPairs]
      exact ⟨by omega, by omega, by decide⟩
    · rw [mem_dPairs]
      exact ⟨by omega, by omega, by decide⟩
  · decide

/-- C5 amended witness: ambiguity holds at `n = 12`. -/
theorem d_naming_ambiguous_from_twelve_witness : dNamingAmbiguous 12 :=
  d_naming_ambiguous_from_twelve.1 12 (le_refl 12)

/-- C6 counterexample: a mismatched input (`circles` shorter than `n`, flows
`n × n`) on which the builder completes without any out-of-range access,
contradicting the claim that every dimension mismatch surfaces as one. -/
theorem assign_short_circles_builds :
    ¬ dimsMatch [⟨0, 0, 1⟩] [[0, 1], [1, 0]] 2
      ∧ (assign_problem [⟨0, 0, 1⟩] [[0, 1], [1, 0]] 2).isSome = true := by
  constructor
  · decide
  · decide

/-- C6 amended: the builder performs no validation, and a mismatch surfaces
as an out-of-range access (failed construction) exactly when `circles` is
longer than `n` or some off-diagonal flow entry `flows[i][j]` with
`i, j < n`, `i ≠ j` is missing; in particular a `circles` list shorter than
`n` with adequate flows silently builds a model with fewer circle
constraints. -/
theorem assign_mismatch_failure_iff (circles : List Circle) (flows : List (List ℚ)) (n : ℕ) :
    assign_problem circles flows n = none
      ↔ n < circles.length ∨ ∃ p ∈ dPairs n, flows[p.1]?.bind (fun r => r[p.2]?) = none :=
  assign_problem_eq_none_iff circles flows n

/-- C9: the builder never reads diagonal flow entries: two flow matrices
agreeing on all off-diagonal accesses (within range `n`) produce identical
models. -/
theorem assign_ignores_diagonal_flows (circles : List Circle)
    (flows flows2 : List (List ℚ)) (n : ℕ)
    (h : ∀ i < n, ∀ j < n, i ≠ j →
      flows[i]?.bind (fun r => r[j]?) = flows2[i]?.bind (fun r => r[j]?)) :
    assign_problem circles flows n = assign_problem circles flows2 n := by
  unfold assign_problem
  have ht : objectiveTerms ((dPairs n).map (fun p => dName p.1 p.2)) flows (dPairs n)
      = objectiveTerms ((dPairs n).map (fun p => dName p.1 p.2)) flows2 (dPairs n) := by
    unfold objectiveTerms
    apply mapM_option_congr
    intro idx hidxmem
    have hidx : idx < (dPairs n).length := List.mem_range.mp hidxmem
    unfold termBody
    rw [List.getElem?_eq_getElem hidx]
    have hpmem := List.getElem_mem hidx
    rw [mem_dPairs] at hpmem
    obtain ⟨hp1, hp2, hp3⟩ := hpmem
    simp only [Option.bind_eq_bind, Option.some_bind]
    cases hd : ((dPairs n).map (fun p => dName p.1 p.2))[idx]? with
    | none => rfl
    | some dv =>
      simp only [Option.some_bind]
      rw [← Option.bind_assoc, ← Option.bind_assoc, h _ hp1 _ hp2 hp3]
  simp only [ht]

/-- C9 witness: two concrete `2 × 2` flow matrices differing only on the
diagonal give the same model. -/
theorem assign_ignores_diagonal_flows_witness :
    assign_problem [⟨0, 0, 1⟩, ⟨2, 2, 1⟩] [[0, 1], [1, 0]] 2
      = assign_problem [⟨0, 0, 1⟩, ⟨2, 2, 1⟩] [[5, 1], [1, 7]] 2 :=
  assign_ignores_diagonal_flows [⟨0, 0, 1⟩, ⟨2, 2, 1⟩] [[0, 1], [1, 0]] [[5, 1], [1, 7]] 2
    (by decide)

/-- C10: for every `num_sources ≥ 1` and `num_destinations ≥ 1` and any
random draws, the demand list returned by `generate_data` sums exactly to
the sum of the returned supply list (the last demand entry is the
remainder). -/
theorem generate_data_demand_sums_to_supply (ns nd : ℕ) (draw : ℕ → ℤ)
    (h1 : 1 ≤ ns) (h2 : 1 ≤ nd) :
    ((generate_data ns nd draw).2.1).sum = ((generate_data ns nd draw).1).sum := by
  unfold generate_data
  simp only [List.sum_append, List.sum_cons, List.sum_nil]
  ring

/-- C10 witness at `num_sources = num_destinations = 2` with constant
draws. -/
theorem generate_data_demand_sums_to_supply_witness :
    ((generate_data 2 2 (fun _ => 3)).2.1).sum = ((generate_data 2 2 (fun _ => 3)).1).sum :=
  generate_data_demand_sums_to_supply 2 2 (fun _ => 3) (by decide) (by decide)

/- Helpers for claims about objective coefficients and `d`-variable
constraint counts. -/

theorem assignTerms_map_fst (flows : List (List ℚ)) (n : ℕ) :
    (assignTerms flows n).map Prod.fst = (dPairs n).map (fun p => dName p.1 p.2) := by
  unfold assignTerms termOf
  rw [List.map_map]
  rfl

theorem assignTerms_find?_of_nodup (flows : List (List ℚ)) (n : ℕ) (p : ℕ × ℕ)
    (hnd : ((dPairs n).map (fun p => dName p.1 p.2)).Nodup) (hp : p ∈ dPairs n) :
    (assignTerms flows n).find? (fun t => t.1 == dName p.1 p.2)
      = some (dName p.1 p.2, flowAt flows p.1 p.2) := by
  apply find?_key_of_nodup
  · rw [assignTerms_map_fst]
    exact hnd
  · exact List.mem_map_of_mem (termOf flows) hp

theorem assignTerms_find?_xName (flows : List (List ℚ)) (n i : ℕ) :
    (assignTerms flows n).find? (fun t => t.1 == xName i) = none := by
  rw [List.find?_eq_none]
  intro t ht
  unfold assignTerms at ht
  rw [List.mem_map] at ht
  obtain ⟨q, _, hqt⟩ := ht
  rw [← hqt]
  intro hbeq
  exact dName_ne_xName q.1 q.2 i (beq_iff_eq.mp hbeq)

theorem assignTerms_find?_yName (flows : List (List ℚ)) (n i : ℕ) :
    (assignTerms flows n).find? (fun t => t.1 == yName i) = none := by
  rw [List.find?_eq_none]
  intro t ht
  unfold assignTerms at ht
  rw [List.mem_map] at ht
  obtain ⟨q, _, hqt⟩ := ht
  rw [← hqt]
  intro hbeq
  exact dName_ne_yName q.1 q.2 i (beq_iff_eq.mp hbeq)

theorem circleBlock_not_contains (i a b : ℕ) (c : Circle) :
    ∀ cons ∈ circleBlock i c, cons.ind.contains (dName a b) = false := by
  intro cons hcons
  have h1 : (dName a b == xName i) = false := beq_eq_false_iff_ne.mpr (dName_ne_xName a b i)
  have h2 : (dName a b == yName i) = false := beq_eq_false_iff_ne.mpr (dName_ne_yName a b i)
  unfold circleBlock at hcons
  rw [List.mem_cons, List.mem_cons, List.mem_cons, List.mem_cons] at hcons
  rcases hcons with rfl | rfl | rfl | rfl | hcons
  · rw [List.contains_cons, h1, List.contains_cons, h2, List.contains_nil]
    rfl
  · rw [List.contains_cons, h1, List.contains_cons, h2, List.contains_nil]
    rfl
  · rw [List.contains_cons, h1, List.contains_cons, h2, List.contains_nil]
    rfl
  · rw [List.contains_cons, h1, List.contains_cons, h2, List.contains_nil]
    rfl
  · cases hcons

theorem auxBlock_contains (q : ℕ × ℕ) (a b : ℕ) :
    ∀ cons ∈ auxBlock q, cons.ind.contains (dName a b) = (dName a b == dName q.1 q.2) := by
  intro cons hcons
  have h1 : (dName a b == xName q.1) = false := beq_eq_false_iff_ne.mpr (dName_ne_xName a b q.1)
  have h2 : (dName a b == xName q.2) = false := beq_eq_false_iff_ne.mpr (dName_ne_xName a b q.2)
  have h3 : (dName a b == yName q.1) = false := beq_eq_false_iff_ne.mpr (dName_ne_yName a b q.1)
  have h4 : (dName a b == yName q.2) = false := beq_eq_false_iff_ne.mpr (dName_ne_yName a b q.2)
  unfold auxBlock at hcons
  rw [List.mem_cons, List.mem_cons] at hcons
  rcases hcons with rfl | rfl | hcons
  · rw [List.contains_cons, h1, List.contains_cons, h2, List.contains_cons, h3,
      List.contains_cons, h4, List.contains_cons, List.contains_nil, Bool.or_false]
    rfl
  · rw [List.contains_cons, h1, List.contains_cons, h2, List.contains_cons, h3,
      List.contains_cons, h4, List.contains_cons, List.contains_nil, Bool.or_false]
    rfl
  · cases hcons

theorem sum_map_ite {α : Type} [DecidableEq α] (p : α) (k : ℕ) :
    ∀ l : List α, (l.map (fun q => if q = p then k else 0)).sum = k * l.count p := by
  intro l
  induction l with
  | nil => simp
  | cons a l ih =>
    rw [List.map_cons, List.sum_cons, ih, List.count_cons]
    by_cases hap : a = p
    · subst hap
      have hb : (a == a) = true := beq_self_eq_true a
      rw [if_pos rfl, hb, if_pos rfl]
      ring
    · have hb : (a == p) = false := beq_eq_false_iff_ne.mpr hap
      rw [if_neg hap, hb, if_neg (by simp)]
      ring

/-- C3: for every matching-dimension input (with unambiguous `d` names), the
builder minimizes, sets the objective coefficient of `d_ij` to exactly
`flows[i][j]` (also when it is zero), and leaves zero objective coefficients
on all `x_i` and `y_i` variables. -/
theorem assign_objective_coeffs (circles : List Circle) (flows : List (List ℚ)) (n : ℕ)
    (h : dimsMatch circles flows n)
    (hnd : ((dPairs n).map (fun p => dName p.1 p.2)).Nodup) :
    ∃ m, assign_problem circles flows n = some m ∧
      m.sense = ObjSense.minimize ∧
      (∀ idx p f, (dPairs n)[idx]? = some p →
        flows[p.1]?.bind (fun r => r[p.2]?) = some f →
        m.vars[2 * n + idx]? = some ⟨dName p.1 p.2, 0, none, f⟩) ∧
      (∀ i, i < n → m.vars[i]? = some ⟨xName i, 0, none, 0⟩
        ∧ m.vars[n + i]? = some ⟨yName i, 0, none, 0⟩) := by
  refine ⟨assignModel circles flows n,
    assign_problem_eq circles flows n (le_of_eq h.1) (dimsMatch_flows_isSome h), rfl, ?_, ?_⟩
  · intro idx p f hp hacc
    show (setLinear (assignVars0 n) (assignTerms flows n))[2 * n + idx]? = _
    unfold setLinear
    rw [List.getElem?_map, assignVars0_d n idx p hp, Option.map_some',
      assignTerms_find?_of_nodup flows n p hnd (List.getElem?_mem hp), flowAt_eq hacc]
  · intro i hi
    constructor
    · show (setLinear (assignVars0 n) (assignTerms flows n))[i]? = _
      unfold setLinear
      rw [List.getElem?_map, assignVars0_x n i hi, Option.map_some',
        assignTerms_find?_xName flows n i]
    · show (setLinear (assignVars0 n) (assignTerms flows n))[n + i]? = _
      unfold setLinear
      rw [List.getElem?_map, assignVars0_y n i hi, Option.map_some',
        assignTerms_find?_yName flows n i]

/-- C3 witness at the spec scenario, checking the coefficient `3` recorded
for `d01` and the zero coefficients of the position variables. -/
theorem assign_objective_coeffs_witness :
    ∃ m, assign_problem [⟨0, 0, 5⟩, ⟨10, 0, 5⟩] [[0, 3], [3, 0]] 2 = some m ∧
      m.sense = ObjSense.minimize ∧
      (∀ idx p f, (dPairs 2)[idx]? = some p →
        [[(0 : ℚ), 3], [3, 0]][p.1]?.bind (fun r => r[p.2]?) = some f →
        m.vars[2 * 2 + idx]? = some ⟨dName p.1 p.2, 0, none, f⟩) ∧
      (∀ i, i < 2 → m.vars[i]? = some ⟨xName i, 0, none, 0⟩
        ∧ m.vars[2 + i]? = some ⟨yName i, 0, none, 0⟩) :=
  assign_objective_coeffs [⟨0, 0, 5⟩, ⟨10, 0, 5⟩] [[0, 3], [3, 0]] 2 (by decide) (by decide)

/-- C4: in every model built from a matching-dimension input (with
unambiguous `d` names), each auxiliary variable `d_ij` appears in exactly
two constraints, and every constraint mentioning it carries coefficient `-1`
on it with sense `≤` and right-hand side `0` — i.e. both bound `d_ij` from
below and none from above. -/
theorem aux_var_lower_bounded_twice (circles : List Circle) (flows : List (List ℚ)) (n : ℕ)
    (h : dimsMatch circles flows n)
    (hnd : ((dPairs n).map (fun p => dName p.1 p.2)).Nodup) :
    ∃ m, assign_problem circles flows n = some m ∧
      ∀ p ∈ dPairs n,
        (m.constrs.filter (fun c => c.ind.contains (dName p.1 p.2))).length = 2 ∧
        (∀ c ∈ m.constrs, c.ind.contains (dName p.1 p.2) = true →
          (c.ind.zip c.val).find? (fun t => t.1 == dName p.1 p.2)
              = some (dName p.1 p.2, -1)
            ∧ c.sense = Sense.L ∧ c.rhs = 0) := by
  refine ⟨assignModel circles flows n,
    assign_problem_eq circles flows n (le_of_eq h.1) (dimsMatch_flows_isSome h), ?_⟩
  intro p hp
  have hinj : ∀ q ∈ dPairs n, dName q.1 q.2 = dName p.1 p.2 → q = p :=
    fun q hq he => List.inj_on_of_nodup_map hnd hq hp he
  constructor
  · show ((((List.range circles.length).flatMap
        (fun i => circleBlock i (circles.getD i ⟨0, 0, 0⟩)))
        ++ (dPairs n).flatMap auxBlock).filter
          (fun c => c.ind.contains (dName p.1 p.2))).length = 2
    rw [List.filter_append, List.length_append]
    have hcf : List.filter (fun c => c.ind.contains (dName p.1 p.2))
        ((List.range circles.length).flatMap
          (fun i => circleBlock i (circles.getD i ⟨0, 0, 0⟩))) = [] := by
      rw [List.filter_eq_nil_iff]
      intro c hc
      rw [List.mem_flatMap] at hc
      obtain ⟨i, _, hci⟩ := hc
      rw [circleBlock_not_contains i p.1 p.2 _ c hci]
      simp
    have haf : List.filter (fun c => c.ind.contains (dName p.1 p.2))
        ((dPairs n).flatMap auxBlock)
        = (dPairs n).flatMap (fun q => if q = p then auxBlock q else []) := by
      rw [List.filter_flatMap, List.flatMap_def, List.flatMap_def]
      congr 1
      apply List.map_congr_left
      intro q hq
      by_cases hqp : q = p
      · subst hqp
        rw [if_pos rfl, List.filter_eq_self]
        intro c hc
        rw [auxBlock_contains q q.1 q.2 c hc]
        exact beq_self_eq_true _
      · rw [if_neg hqp, List.filter_eq_nil_iff]
        intro c hc
        rw [auxBlock_contains q p.1 p.2 c hc]
        intro hbeq
        exact hqp (hinj q hq (beq_iff_eq.mp hbeq).symm)
    rw [hcf, haf, List.length_flatMap]
    have hmap : List.map (List.length ∘ fun q => if q = p then auxBlock q else []) (dPairs n)
        = List.map (fun q => if q = p then 2 else 0) (dPairs n) := by
      apply List.map_congr_left
      intro q _
      by_cases hqp : q = p <;> simp [hqp, auxBlock]
    rw [hmap, sum_map_ite p 2 (dPairs n),
      List.count_eq_one_of_mem (List.Nodup.of_map _ hnd) hp]
    simp
  · intro c hc hcont
    have hc2 : c ∈ ((List.range circles.length).flatMap
        (fun i => circleBlock i (circles.getD i ⟨0, 0, 0⟩)))
        ++ (dPairs n).flatMap auxBlock := hc
    rw [List.mem_append] at hc2
    rcases hc2 with hc2 | hc2
    · rw [List.mem_flatMap] at hc2
      obtain ⟨i, _, hci⟩ := hc2
      rw [circleBlock_not_contains i p.1 p.2 _ c hci] at hcont
      cases hcont
    · rw [List.mem_flatMap] at hc2
      obtain ⟨q, hq, hcq⟩ := hc2
      rw [auxBlock_contains q p.1 p.2 c hcq] at hcont
      have hqp : q = p := hinj q hq (beq_iff_eq.mp hcont).symm
      subst hqp
      have hx1 : (xName q.1 == dName q.1 q.2) = false :=
        beq_eq_false_iff_ne.mpr (Ne.symm (dName_ne_xName q.1 q.2 q.1))
      have hx2 : (xName q.2 == dName q.1 q.2) = false :=
        beq_eq_false_iff_ne.mpr (Ne.symm (dName_ne_xName q.1 q.2 q.2))
      have hy1 : (yName q.1 == dName q.1 q.2) = false :=
        beq_eq_false_iff_ne.mpr (Ne.symm (dName_ne_yName q.1 q.2 q.1))
      have hy2 : (yName q.2 == dName q.1 q.2) = false :=
        beq_eq_false_iff_ne.mpr (Ne.symm (dName_ne_yName q.1 q.2 q.2))
      unfold auxBlock at hcq
      rw [List.mem_cons, List.mem_cons] at hcq
      rcases hcq with rfl | rfl | hcq
      · refine ⟨?_, rfl, rfl⟩
        simp only [List.zip_cons_cons, List.find?_cons, hx1, hx2, hy1, hy2,
          beq_self_eq_true]
      · refine ⟨?_, rfl, rfl⟩
        simp only [List.zip_cons_cons, List.find?_cons, hx1, hx2, hy1, hy2,
          beq_self_eq_true]
      · cases hcq

/-- C4 witness at the spec scenario. -/
theorem aux_var_lower_bounded_twice_witness :
    ∃ m, assign_problem [⟨0, 0, 5⟩, ⟨10, 0, 5⟩] [[0, 3], [3, 0]] 2 = some m ∧
      ∀ p ∈ dPairs 2,
        (m.constrs.filter (fun c => c.ind.contains (dName p.1 p.2))).length = 2 ∧
        (∀ c ∈ m.constrs, c.ind.contains (dName p.1 p.2) = true →
          (c.ind.zip c.val).find? (fun t => t.1 == dName p.1 p.2)
              = some (dName p.1 p.2, -1)
            ∧ c.sense = Sense.L ∧ c.rhs = 0) :=
  aux_var_lower_bounded_twice [⟨0, 0, 5⟩, ⟨10, 0, 5⟩] [[0, 3], [3, 0]] 2 (by decide) (by decide)

/-- C7: the `2 × 2` transportation scenario `supply = [10, 20]`,
`demand = [15, 15]`, `costs = [1, 2, 3, 4]` builds exactly 4 shipment
variables, 2 `≤`-sense supply rows with right-hand sides 10 and 20, 2
`=`-sense demand rows with right-hand sides 15 and 15, and every feasible
assignment ships a total of exactly 30 units. -/
theorem transportation_model_2x2 :
    transportation_problem [10, 20] [15, 15] [1, 2, 3, 4] = some tModel2x2 ∧
      tModel2x2.vars.length = 4 ∧
      tModel2x2.constrs.length = 4 ∧
      (tModel2x2.constrs.filter (fun c => c.sense == Sense.L)).map LinConstr.rhs = [10, 20] ∧
      (tModel2x2.constrs.filter (fun c => c.sense == Sense.E)).map LinConstr.rhs = [15, 15] ∧
      ∀ asg : String → ℚ, feasible tModel2x2 asg →
        asg (tVar 0 0) + asg (tVar 0 1) + asg (tVar 1 0) + asg (tVar 1 1) = 30 := by
  refine ⟨by decide, by decide, by decide, by decide, by decide, ?_⟩
  intro asg hfeas
  obtain ⟨hcon, _⟩ := hfeas
  have h0 := hcon ⟨[tVar 0 0, tVar 1 0], [1, 1], Sense.E, 15, ""⟩ (by decide)
  have h1 := hcon ⟨[tVar 0 1, tVar 1 1], [1, 1], Sense.E, 15, ""⟩ (by decide)
  have e0 : rowVal asg ⟨[tVar 0 0, tVar 1 0], [1, 1], Sense.E, 15, ""⟩ = 15 := h0.2.1 rfl
  have e1 : rowVal asg ⟨[tVar 0 1, tVar 1 1], [1, 1], Sense.E, 15, ""⟩ = 15 := h1.2.1 rfl
  unfold rowVal at e0 e1
  simp only [List.zip_cons_cons, List.zip_nil_right, List.map_cons, List.map_nil,
    List.sum_cons, List.sum_nil, one_mul, add_zero] at e0 e1
  linarith

/-- C7 witness: the concrete feasible shipment `asg2x2` ships 30 in total. -/
theorem transportation_model_2x2_witness :
    asg2x2 (tVar 0 0) + asg2x2 (tVar 0 1) + asg2x2 (tVar 1 0) + asg2x2 (tVar 1 1) = 30 := by
  have ha00 : asg2x2 (tVar 0 0) = 10 := by decide
  have ha01 : asg2x2 (tVar 0 1) = 0 := by decide
  have ha10 : asg2x2 (tVar 1 0) = 5 := by decide
  have ha11 : asg2x2 (tVar 1 1) = 15 := by decide
  apply transportation_model_2x2.2.2.2.2.2 asg2x2
  constructor
  · intro c hc
    have hcs : tModel2x2.constrs
        = [⟨[tVar 0 0, tVar 0 1], [1, 1], Sense.L, 10, ""⟩,
           ⟨[tVar 1 0, tVar 1 1], [1, 1], Sense.L, 20, ""⟩,
           ⟨[tVar 0 0, tVar 1 0], [1, 1], Sense.E, 15, ""⟩,
           ⟨[tVar 0 1, tVar 1 1], [1, 1], Sense.E, 15, ""⟩] := by decide
    rw [hcs, List.mem_cons, List.mem_cons, List.mem_cons, List.mem_cons] at hc
    rcases hc with rfl | rfl | rfl | rfl | hc
    · refine ⟨fun _ => ?_, fun hE => Sense.noConfusion hE, fun hG => Sense.noConfusion hG⟩
      show rowVal asg2x2 _ ≤ _
      unfold rowVal
      simp only [List.zip_cons_cons, List.zip_nil_right, List.map_cons, List.map_nil,
        List.sum_cons, List.sum_nil, one_mul, add_zero, ha00, ha01]
      norm_num
    · refine ⟨fun _ => ?_, fun hE => Sense.noConfusion hE, fun hG => Sense.noConfusion hG⟩
      show rowVal asg2x2 _ ≤ _
      unfold rowVal
      simp only [List.zip_cons_cons, List.zip_nil_right, List.map_cons, List.map_nil,
        List.sum_cons, List.sum_nil, one_mul, add_zero, ha10, ha11]
      norm_num
    · refine ⟨fun hL => Sense.noConfusion hL, fun _ => ?_, fun hG => Sense.noConfusion hG⟩
      show rowVal asg2x2 _ = _
      unfold rowVal
      simp only [List.zip_cons_cons, List.zip_nil_right, List.map_cons, List.map_nil,
        List.sum_cons, List.sum_nil, one_mul, add_zero, ha00, ha10]
      norm_num
    · refine ⟨fun hL => Sense.noConfusion hL, fun _ => ?_, fun hG => Sense.noConfusion hG⟩
      show rowVal asg2x2 _ = _
      unfold rowVal
      simp only [List.zip_cons_cons, List.zip_nil_right, List.map_cons, List.map_nil,
        List.sum_cons, List.sum_nil, one_mul, add_zero, ha01, ha11]
      norm_num
    · cases hc
  · intro v hv
    have hvs : tModel2x2.vars
        = [⟨tVar 0 0, 0, none, 1⟩, ⟨tVar 0 1, 0, none, 2⟩,
           ⟨tVar 1 0, 0, none, 3⟩, ⟨tVar 1 1, 0, none, 4⟩] := by decide
    rw [hvs, List.mem_cons, List.mem_cons, List.mem_cons, List.mem_cons] at hv
    rcases hv with rfl | rfl | rfl | rfl | hv
    · exact ⟨by rw [show (⟨tVar 0 0, 0, none, 1⟩ : Var).vname = tVar 0 0 from rfl, ha00]; norm_num,
        by simp [ubOk]⟩
    · exact ⟨by rw [show (⟨tVar 0 1, 0, none, 2⟩ : Var).vname = tVar 0 1 from rfl, ha01],
        by simp [ubOk]⟩
    · exact ⟨by rw [show (⟨tVar 1 0, 0, none, 3⟩ : Var).vname = tVar 1 0 from rfl, ha10]; norm_num,
        by simp [ubOk]⟩
    · exact ⟨by rw [show (⟨tVar 1 1, 0, none, 4⟩ : Var).vname = tVar 1 1 from rfl, ha11]; norm_num,
        by simp [ubOk]⟩
    · cases hv

/-- C8: when the external solver raises a CPLEX exception, the transportation
script catches it and returns the printed error line instead of propagating,
while the assignment script propagates it to the caller. -/
theorem solver_exception_handling (supply demand costs : List ℚ) (showFlag : Bool)
    (circles : List Circle) (flows : List (List ℚ)) (n : ℕ) (msg : String)
    (hT : (transportation_problem supply demand costs).isSome = true)
    (hA : (assign_problem circles flows n).isSome = true) :
    transportation_script supply demand costs showFlag
        (fun _ => Except.error (PyExn.cplexError msg)) = Except.ok ["Exception raised: " ++ msg]
      ∧ assign_script circles flows n (fun _ => Except.error (PyExn.cplexError msg))
        = Except.error (PyExn.cplexError msg) := by
  obtain ⟨m, hm⟩ := Option.isSome_iff_exists.mp hT
  obtain ⟨m2, hm2⟩ := Option.isSome_iff_exists.mp hA
  constructor
  · unfold transportation_script
    rw [hm]
    rfl
  · unfold assign_script
    rw [hm2]
    rfl

/-- C8 witness: a concrete licensing-style CPLEX error on concrete inputs. -/
theorem solver_exception_handling_witness :
    transportation_script [10, 20] [15, 15] [1, 2, 3, 4] true
        (fun _ => Except.error (PyExn.cplexError "CPLEX Error 1016"))
      = Except.ok ["Exception raised: " ++ "CPLEX Error 1016"]
      ∧ assign_script [⟨0, 0, 1⟩] [[0]] 1
        (fun _ => Except.error (PyExn.cplexError "CPLEX Error 1016"))
      = Except.error (PyExn.cplexError "CPLEX Error 1016") :=
  solver_exception_handling [10, 20] [15, 15] [1, 2, 3, 4] true [⟨0, 0, 1⟩] [[0]] 1
    "CPLEX Error 1016" (by decide) (by decide)

end Optimization
